import Mathlib

/-!  Shallow embedding of the SSD1306-style OLED driver in `src/main.c`
(ATtiny412, TWI0 two-wire interface).  Bus activity is modelled as a trace
of events: the raw address byte written to `TWI0.MADDR` by `i2c_start`, a
data byte written to `TWI0.MDATA` by `i2c_write`, and the stop command
issued by `i2c_stop`.  Every driver routine is translated into the event
trace it produces.  A font lookup that the C code would perform out of
bounds of the `font` array has no defined result and is modelled as
`none`.  Machine bytes are `Nat` with an explicit `% 256` at each
`uint8_t` boundary. -/

namespace OledDriver

/-- One observable action on the two-wire bus. -/
inductive Event where
  | start (a : Nat)
  | write (b : Nat)
  | stop
  deriving DecidableEq, Repr

/-- A completed bus transaction: the raw address byte of its start
condition and the bytes written before the stop condition. -/
structure Txn where
  addr : Nat
  bytes : List Nat
  deriving DecidableEq, Repr

/-- `#define OLED_ADDR 0x3C`. -/
def OLED_ADDR : Nat := 0x3C

/-- `#define OLED_CMD_DISPLAY_OFF 0xAE`. -/
def OLED_CMD_DISPLAY_OFF : Nat := 0xAE

/-- `#define OLED_CMD_DISPLAY_ON 0xAF`. -/
def OLED_CMD_DISPLAY_ON : Nat := 0xAF

/-- `#define OLED_CMD_SET_DISPLAY_CLOCK_DIV 0xD5`. -/
def OLED_CMD_SET_DISPLAY_CLOCK_DIV : Nat := 0xD5

/-- `#define OLED_CMD_SET_MULTIPLEX 0xA8`. -/
def OLED_CMD_SET_MULTIPLEX : Nat := 0xA8

/-- `#define OLED_CMD_SET_DISPLAY_OFFSET 0xD3`. -/
def OLED_CMD_SET_DISPLAY_OFFSET : Nat := 0xD3

/-- `#define OLED_CMD_SET_START_LINE 0x40`. -/
def OLED_CMD_SET_START_LINE : Nat := 0x40

/-- `#define OLED_CMD_CHARGE_PUMP 0x8D`. -/
def OLED_CMD_CHARGE_PUMP : Nat := 0x8D

/-- `#define OLED_CMD_MEMORY_MODE 0x20`. -/
def OLED_CMD_MEMORY_MODE : Nat := 0x20

/-- `#define OLED_CMD_SEG_REMAP 0xA1`. -/
def OLED_CMD_SEG_REMAP : Nat := 0xA1

/-- `#define OLED_CMD_COM_SCAN_DEC 0xC8`. -/
def OLED_CMD_COM_SCAN_DEC : Nat := 0xC8

/-- `#define OLED_CMD_SET_CONTRAST 0x81`. -/
def OLED_CMD_SET_CONTRAST : Nat := 0x81

/-- `#define OLED_CMD_PRECHARGE 0xD9`. -/
def OLED_CMD_PRECHARGE : Nat := 0xD9

/-- `#define OLED_CMD_SETVCOMDETECT 0xDB`. -/
def OLED_CMD_SETVCOMDETECT : Nat := 0xDB

/-- `#define OLED_CMD_DISPLAY_ALL_ON_RESUME 0xA4`. -/
def OLED_CMD_DISPLAY_ALL_ON_RESUME : Nat := 0xA4

/-- `#define OLED_CMD_NORMAL_DISPLAY 0xA6`. -/
def OLED_CMD_NORMAL_DISPLAY : Nat := 0xA6

/-- The 5x7 font array `const uint8_t font[][5] PROGMEM`, row for row as
written in the source; the comments in the source label the rows with the
character codes 32, 33, 48, 49, ..., 57. The array has 12 rows. -/
def font : List (List Nat) :=
  [[0x00, 0x00, 0x00, 0x00, 0x00],
   [0x00, 0x00, 0x5F, 0x00, 0x00],
   [0x7C, 0x12, 0x11, 0x12, 0x7C],
   [0x00, 0x42, 0x7F, 0x40, 0x00],
   [0x42, 0x61, 0x51, 0x49, 0x46],
   [0x21, 0x41, 0x45, 0x4B, 0x31],
   [0x18, 0x14, 0x12, 0x7F, 0x10],
   [0x27, 0x45, 0x45, 0x45, 0x39],
   [0x3C, 0x4A, 0x49, 0x49, 0x30],
   [0x01, 0x71, 0x09, 0x05, 0x03],
   [0x36, 0x49, 0x49, 0x49, 0x36],
   [0x06, 0x49, 0x49, 0x29, 0x1E]]

/-- The row of `font` the expression `font[c - 32]` in `oled_write_char`
denotes for character code `c`: defined only when the index is in bounds
of the array (`none` models the undefined out-of-bounds access of the C
code, including the negative index arising for `c < 32`). -/
def glyphRow (c : Nat) : Option (List Nat) :=
  if 32 ≤ c then font.get? (c - 32) else none

/-- `i2c_start`: writes `address << 1` to `TWI0.MADDR` (truncated to the
8-bit register), then busy-waits on the write-interrupt flag. -/
def i2cStartEvents (address : Nat) : List Event :=
  [Event.start (address * 2 % 256)]

/-- `i2c_write`: writes the byte to `TWI0.MDATA` (a `uint8_t` parameter,
hence `% 256`), then busy-waits on the write-interrupt flag. -/
def i2cWriteEvents (data : Nat) : List Event :=
  [Event.write (data % 256)]

/-- `i2c_stop`: issues the stop command via `TWI0.MCTRLB`. -/
def i2cStopEvents : List Event :=
  [Event.stop]

/-- The `for` loop in `oled_write_char`: one `i2c_write` per byte, in
order. -/
def i2cWriteAllEvents : List Nat → List Event
  | [] => []
  | b :: bs => i2cWriteEvents b ++ i2cWriteAllEvents bs

/-- `oled_command(cmd)`: start to `OLED_ADDR`, control byte `0x00`, the
opcode, stop. -/
def oledCommandEvents (cmd : Nat) : List Event :=
  i2cStartEvents OLED_ADDR ++ i2cWriteEvents 0x00 ++ i2cWriteEvents cmd ++ i2cStopEvents

/-- A sequence of consecutive `oled_command` calls. -/
def oledCommandAllEvents : List Nat → List Event
  | [] => []
  | c :: cs => oledCommandEvents c ++ oledCommandAllEvents cs

/-- The 23 opcode/parameter bytes passed to `oled_command`, in order, by
`oled_init`. -/
def oledInitCmds : List Nat :=
  [OLED_CMD_DISPLAY_OFF,
   OLED_CMD_SET_DISPLAY_CLOCK_DIV, 0x80,
   OLED_CMD_SET_MULTIPLEX, 0x1F,
   OLED_CMD_SET_DISPLAY_OFFSET, 0x00,
   OLED_CMD_SET_START_LINE ||| 0x00,
   OLED_CMD_CHARGE_PUMP, 0x14,
   OLED_CMD_MEMORY_MODE, 0x00,
   OLED_CMD_SEG_REMAP ||| 0x01,
   OLED_CMD_COM_SCAN_DEC,
   OLED_CMD_SET_CONTRAST, 0x8F,
   OLED_CMD_PRECHARGE, 0xF1,
   OLED_CMD_SETVCOMDETECT, 0x40,
   OLED_CMD_DISPLAY_ALL_ON_RESUME,
   OLED_CMD_NORMAL_DISPLAY,
   OLED_CMD_DISPLAY_ON]

/-- `oled_init()`: the bus trace of the whole bring-up sequence. -/
def oledInitEvents : List Event :=
  oledCommandAllEvents oledInitCmds

/-- `oled_set_cursor(col, row)`: three `oled_command` calls.  `col` and
`row` are `uint8_t`; `col & 0x0F` is `col % 16` and `(col >> 4) & 0x0F`
is `col / 16 % 16`, and for arguments below 256 the formulas agree with
the C arithmetic. -/
def oledSetCursorEvents (col row : Nat) : List Event :=
  oledCommandEvents (0xB0 + row) ++
  oledCommandEvents (0x00 + col % 16) ++
  oledCommandEvents (0x10 + col / 16 % 16)

/-- `oled_write_char(c)`: start, data control byte `0x40`, the five bytes
of `font[c - 32]`, a `0x00` separator, stop.  Undefined (`none`) when the
font access is out of bounds. -/
def oledWriteCharEvents (c : Nat) : Option (List Event) :=
  (glyphRow c).map fun g =>
    i2cStartEvents OLED_ADDR ++ i2cWriteEvents 0x40 ++
    i2cWriteAllEvents g ++ i2cWriteEvents 0x00 ++ i2cStopEvents

/-- `oled_write_string(str)`: one `oled_write_char` per character, in
order; undefined as soon as one character write is undefined. -/
def oledWriteStringEvents : List Nat → Option (List Event)
  | [] => some []
  | c :: cs => do
      let e ← oledWriteCharEvents c
      let es ← oledWriteStringEvents cs
      pure (e ++ es)

/-- Mock-transport transaction parser, one event at a time.  The state is
`none` after a protocol violation, otherwise the completed transactions
so far together with the currently open transaction (if any). -/
def stepEv (s : Option (List Txn × Option (Nat × List Nat))) (e : Event) :
    Option (List Txn × Option (Nat × List Nat)) :=
  match s, e with
  | some (txs, none), Event.start a => some (txs, some (a, []))
  | some (txs, some (a, bs)), Event.write b => some (txs, some (a, bs ++ [b]))
  | some (txs, some (a, bs)), Event.stop => some (txs ++ [⟨a, bs⟩], none)
  | _, _ => none

/-- Run the mock transport over a whole event trace. -/
def runEvents (evs : List Event) : Option (List Txn × Option (Nat × List Nat)) :=
  evs.foldl stepEv (some ([], none))

/-- The list of transactions of a trace, defined exactly when the trace is
a sequence of complete transactions: every start happens on a closed bus,
every write and stop on an open one, and the bus is closed at the end. -/
def groupTxns (evs : List Event) : Option (List Txn) :=
  match runEvents evs with
  | some (txs, none) => some txs
  | _ => none

/-- A trace is well formed when it parses into complete transactions:
every opened transaction is closed by a stop before the trace ends and no
start occurs while another transaction is open. -/
def wellFormed (evs : List Event) : Prop :=
  (groupTxns evs).isSome = true

/-- Poll counter semantics of the busy-wait loop
`while (!(TWI0.MSTATUS & TWI_WIF_bm));` shared by `i2c_start` and
`i2c_write`: `flag n` is the value the n-th poll of the write-interrupt
flag reads, and the loop steps from poll `n` to poll `n + 1` exactly when
poll `n` reads the flag clear. -/
inductive spinReaches (flag : Nat → Bool) : Nat → Prop where
  | init : spinReaches flag 0
  | step (n : Nat) : spinReaches flag n → flag n = false → spinReaches flag (n + 1)

/-- The busy-wait loop terminates on flag history `flag`: some reachable
poll reads the flag set. -/
def spinTerminates (flag : Nat → Bool) : Prop :=
  ∃ n, spinReaches flag n ∧ flag n = true

lemma stepEv_none (e : Event) : stepEv none e = none := by
  cases e <;> rfl

lemma foldl_stepEv_none (evs : List Event) : evs.foldl stepEv none = none := by
  induction evs with
  | nil => rfl
  | cons e evs ih => simp [List.foldl, stepEv_none, ih]

lemma foldl_stepEv_shift (evs : List Event) :
    ∀ (txs : List Txn) (st : Option (Nat × List Nat)),
      evs.foldl stepEv (some (txs, st)) =
        Option.map (fun p => (txs ++ p.1, p.2)) (evs.foldl stepEv (some ([], st))) := by
  induction evs with
  | nil => intro txs st; simp [List.foldl]
  | cons e evs ih =>
    intro txs st
    cases st with
    | none =>
      cases e with
      | start a => simpa [List.foldl, stepEv] using ih txs (some (a, []))
      | write b => simp [List.foldl, stepEv, foldl_stepEv_none]
      | stop => simp [List.foldl, stepEv, foldl_stepEv_none]
    | some p =>
      obtain ⟨a, bs⟩ := p
      cases e with
      | start a2 => simp [List.foldl, stepEv, foldl_stepEv_none]
      | write b => simpa [List.foldl, stepEv] using ih txs (some (a, bs ++ [b]))
      | stop =>
        have h1 := ih (txs ++ [⟨a, bs⟩]) none
        have h2 := ih [⟨a, bs⟩] none
        simp only [List.foldl, stepEv, List.nil_append]
        rw [h1, h2, Option.map_map]
        cases evs.foldl stepEv (some ([], none)) with
        | none => rfl
        | some q => simp [List.append_assoc]

lemma runEvents_of_groupTxns (evs : List Event) (txs : List Txn)
    (h : groupTxns evs = some txs) : runEvents evs = some (txs, none) := by
  unfold groupTxns at h
  cases hr : runEvents evs with
  | none => simp [hr] at h
  | some p =>
    obtain ⟨ts, st⟩ := p
    cases st with
    | none =>
      simp only [hr, Option.some.injEq] at h
      subst h
      rfl
    | some q => simp [hr] at h

lemma groupTxns_append (xs ys : List Event) (txs : List Txn)
    (h : groupTxns xs = some txs) :
    groupTxns (xs ++ ys) = Option.map (fun ts => txs ++ ts) (groupTxns ys) := by
  have hx : runEvents xs = some (txs, none) := runEvents_of_groupTxns xs txs h
  have hrun : runEvents (xs ++ ys) =
      Option.map (fun p => (txs ++ p.1, p.2)) (runEvents ys) := by
    unfold runEvents
    rw [List.foldl_append]
    unfold runEvents at hx
    rw [hx]
    exact foldl_stepEv_shift ys txs none
  unfold groupTxns
  rw [hrun]
  cases hy : runEvents ys with
  | none => rfl
  | some p =>
    obtain ⟨ts, st⟩ := p
    cases st <;> rfl

lemma groupTxns_commandEvents (cmd : Nat) :
    groupTxns (oledCommandEvents cmd) = some [⟨0x78, [0x00, cmd % 256]⟩] := rfl

lemma font_row_len : ∀ g ∈ font, g.length = 5 := by decide

lemma font_map_mod : ∀ g ∈ font, g.map (fun b => b % 256) = g := by decide

lemma glyphRow_mem (c : Nat) (g : List Nat) (h : glyphRow c = some g) : g ∈ font := by
  unfold glyphRow at h
  split at h
  · exact List.get?_mem h
  · cases h

lemma glyphRow_isSome (c : Nat) (h1 : 32 ≤ c) (h2 : c < 32 + font.length) :
    ∃ g, glyphRow c = some g := by
  unfold glyphRow
  rw [if_pos h1]
  have hlt : c - 32 < font.length := by omega
  exact ⟨font.get ⟨c - 32, hlt⟩, List.get?_eq_get hlt⟩

lemma i2cWriteAllEvents_map (g : List Nat) :
    i2cWriteAllEvents g = g.map fun b => Event.write (b % 256) := by
  induction g with
  | nil => rfl
  | cons b bs ih => simp [i2cWriteAllEvents, i2cWriteEvents, ih]

lemma foldl_stepEv_writes (g : List Nat) :
    ∀ (txs : List Txn) (a : Nat) (acc : List Nat),
      (g.map fun b => Event.write (b % 256)).foldl stepEv (some (txs, some (a, acc))) =
        some (txs, some (a, acc ++ g.map (· % 256))) := by
  induction g with
  | nil => intro txs a acc; simp [List.foldl]
  | cons b bs ih =>
    intro txs a acc
    simp only [List.map, List.foldl, stepEv]
    rw [ih]
    simp

lemma groupTxns_writeCharEvents (c : Nat) (g : List Nat) (h : glyphRow c = some g) :
    oledWriteCharEvents c = some
      (i2cStartEvents OLED_ADDR ++ i2cWriteEvents 0x40 ++
       i2cWriteAllEvents g ++ i2cWriteEvents 0x00 ++ i2cStopEvents) ∧
    groupTxns
      (i2cStartEvents OLED_ADDR ++ i2cWriteEvents 0x40 ++
       i2cWriteAllEvents g ++ i2cWriteEvents 0x00 ++ i2cStopEvents) =
      some [⟨0x78, 0x40 :: (g.map (· % 256) ++ [0x00])⟩] := by
  constructor
  · rw [oledWriteCharEvents, h]
    rfl
  · have hevs :
        (i2cStartEvents OLED_ADDR ++ i2cWriteEvents 0x40 ++
         i2cWriteAllEvents g ++ i2cWriteEvents 0x00 ++ i2cStopEvents) =
          Event.start 0x78 :: Event.write 0x40 ::
            ((g.map fun b => Event.write (b % 256)) ++ [Event.write 0x00, Event.stop]) := by
      simp [i2cStartEvents, i2cWriteEvents, i2cStopEvents, OLED_ADDR, i2cWriteAllEvents_map]
    have hrun :
        runEvents
          (i2cStartEvents OLED_ADDR ++ i2cWriteEvents 0x40 ++
           i2cWriteAllEvents g ++ i2cWriteEvents 0x00 ++ i2cStopEvents) =
          some ([⟨0x78, 0x40 :: (g.map (· % 256) ++ [0x00])⟩], none) := by
      rw [runEvents, hevs]
      simp only [List.foldl]
      rw [show stepEv (stepEv (some ([], none)) (Event.start 0x78)) (Event.write 0x40) =
            some ([], some (0x78, [0x40])) from rfl]
      rw [List.foldl_append, foldl_stepEv_writes]
      simp [List.foldl, stepEv]
    unfold groupTxns
    rw [hrun]

/-- C5: for every character code in the range the table actually covers,
`font[c - 32]` is a well defined row of exactly 5 bytes, and the lookup is
a pure function of `c`, so repeated lookups agree. -/
theorem glyph_five_bytes (c : Nat) (h1 : 32 ≤ c) (h2 : c < 32 + font.length) :
    ∃ g, glyphRow c = some g ∧ g.length = 5 ∧
      ∀ g2, glyphRow c = some g2 → g2 = g := by
  obtain ⟨g, hg⟩ := glyphRow_isSome c h1 h2
  refine ⟨g, hg, font_row_len g (glyphRow_mem c g hg), ?_⟩
  intro g2 hg2
  rw [hg] at hg2
  exact (Option.some_inj.mp hg2).symm

/-- Witness for `glyph_five_bytes` at character code 33. -/
theorem glyph_five_bytes_witness :
    32 ≤ 33 ∧ 33 < 32 + font.length ∧
      ∃ g, glyphRow 33 = some g ∧ g.length = 5 ∧
        ∀ g2, glyphRow 33 = some g2 → g2 = g :=
  ⟨by decide, by decide, glyph_five_bytes 33 (by decide) (by decide)⟩

/-- C7: `oled_command(cmd)` performs exactly one bus transaction: a start
condition with address byte `0x78 = 0x3C << 1`, the command control byte
`0x00`, the opcode byte (truncated to `uint8_t`), then stop. -/
theorem oled_command_single_transaction (cmd : Nat) :
    oledCommandEvents cmd =
      [Event.start 0x78, Event.write 0x00, Event.write (cmd % 256), Event.stop] ∧
    groupTxns (oledCommandEvents cmd) = some [⟨0x78, [0x00, cmd % 256]⟩] :=
  ⟨rfl, groupTxns_commandEvents cmd⟩

lemma groupTxns_setCursorEvents (col row : Nat) :
    groupTxns (oledSetCursorEvents col row) = some
      [⟨0x78, [0x00, (0xB0 + row) % 256]⟩,
       ⟨0x78, [0x00, (0x00 + col % 16) % 256]⟩,
       ⟨0x78, [0x00, (0x10 + col / 16 % 16) % 256]⟩] := by
  unfold oledSetCursorEvents
  rw [List.append_assoc]
  rw [groupTxns_append _ _ _ (groupTxns_commandEvents (0xB0 + row)),
    groupTxns_append _ _ _ (groupTxns_commandEvents (0x00 + col % 16)),
    groupTxns_commandEvents (0x10 + col / 16 % 16)]
  rfl

/-- C4: `oled_set_cursor(col, row)` immediately followed by
`oled_write_char(c)` for a character code inside the table produces
exactly three single-byte command transactions (page select, column low
nibble, column high nibble) and then exactly one data transaction whose
payload after the `0x40` control byte is the 5 glyph bytes plus one zero
separator byte, 6 bytes in all. -/
theorem set_cursor_write_char_txns (col row c : Nat) (h1 : 32 ≤ c)
    (h2 : c < 32 + font.length) :
    ∃ g ws, glyphRow c = some g ∧ oledWriteCharEvents c = some ws ∧
      (g ++ [0x00]).length = 6 ∧
      groupTxns (oledSetCursorEvents col row ++ ws) = some
        [⟨0x78, [0x00, (0xB0 + row) % 256]⟩,
         ⟨0x78, [0x00, col % 16]⟩,
         ⟨0x78, [0x00, 0x10 + col / 16 % 16]⟩,
         ⟨0x78, 0x40 :: (g ++ [0x00])⟩] := by
  obtain ⟨g, hg⟩ := glyphRow_isSome c h1 h2
  have hmem := glyphRow_mem c g hg
  have hlen : g.length = 5 := font_row_len g hmem
  have hmod : g.map (fun b => b % 256) = g := font_map_mod g hmem
  obtain ⟨hw, hparse⟩ := groupTxns_writeCharEvents c g hg
  rw [hmod] at hparse
  refine ⟨g, _, hg, hw, by simp [hlen], ?_⟩
  rw [groupTxns_append _ _ _ (groupTxns_setCursorEvents col row), hparse]
  have e1 : (0x00 + col % 16) % 256 = col % 16 := by omega
  have e2 : (0x10 + col / 16 % 16) % 256 = 0x10 + col / 16 % 16 := by omega
  simp only [e1, e2]
  rfl

/-- Witness for `set_cursor_write_char_txns` at column 0, row 0 and
character code 32. -/
theorem set_cursor_write_char_txns_witness :
    32 ≤ 32 ∧ 32 < 32 + font.length ∧
      ∃ g ws, glyphRow 32 = some g ∧ oledWriteCharEvents 32 = some ws ∧
        (g ++ [0x00]).length = 6 ∧
        groupTxns (oledSetCursorEvents 0 0 ++ ws) = some
          [⟨0x78, [0x00, (0xB0 + 0) % 256]⟩,
           ⟨0x78, [0x00, 0 % 16]⟩,
           ⟨0x78, [0x00, 0x10 + 0 / 16 % 16]⟩,
           ⟨0x78, 0x40 :: (g ++ [0x00])⟩] :=
  ⟨by decide, by decide, set_cursor_write_char_txns 0 0 32 (by decide) (by decide)⟩

/-- C10: for every column argument (the masks make this true for all
naturals, in particular all `uint8_t` values above 127), the second and
third `oled_set_cursor` command bytes are `col % 16`, within
`0x00`–`0x0F`, and `0x10 + col / 16 % 16`, within `0x10`–`0x1F`. -/
theorem set_cursor_column_nibble_ranges (col row : Nat) :
    groupTxns (oledSetCursorEvents col row) = some
      [⟨0x78, [0x00, (0xB0 + row) % 256]⟩,
       ⟨0x78, [0x00, col % 16]⟩,
       ⟨0x78, [0x00, 0x10 + col / 16 % 16]⟩] ∧
    col % 16 ≤ 0x0F ∧
    0x10 ≤ 0x10 + col / 16 % 16 ∧ 0x10 + col / 16 % 16 ≤ 0x1F := by
  refine ⟨?_, by omega, by omega, by omega⟩
  rw [groupTxns_setCursorEvents]
  have e1 : (0x00 + col % 16) % 256 = col % 16 := by omega
  have e2 : (0x10 + col / 16 % 16) % 256 = 0x10 + col / 16 % 16 := by omega
  rw [e1, e2]

lemma wellFormed_of_groupTxns (evs : List Event) (txs : List Txn)
    (h : groupTxns evs = some txs) : wellFormed evs := by
  unfold wellFormed
  rw [h]
  rfl

lemma wellFormed_append (xs ys : List Event) (hx : wellFormed xs)
    (hy : wellFormed ys) : wellFormed (xs ++ ys) := by
  unfold wellFormed at hx hy
  obtain ⟨txs, htxs⟩ := Option.isSome_iff_exists.mp hx
  obtain ⟨tys, htys⟩ := Option.isSome_iff_exists.mp hy
  apply wellFormed_of_groupTxns _ (txs ++ tys)
  rw [groupTxns_append _ _ _ htxs, htys]
  rfl

lemma wellFormed_writeChar (c : Nat) (ws : List Event)
    (h : oledWriteCharEvents c = some ws) : wellFormed ws := by
  cases hg : glyphRow c with
  | none => rw [oledWriteCharEvents, hg] at h; cases h
  | some g =>
    obtain ⟨hw, hparse⟩ := groupTxns_writeCharEvents c g hg
    rw [h] at hw
    obtain rfl : ws = _ := Option.some_inj.mp hw
    exact wellFormed_of_groupTxns _ _ hparse

lemma wellFormed_writeString (s : List Nat) :
    ∀ ws, oledWriteStringEvents s = some ws → wellFormed ws := by
  induction s with
  | nil =>
    intro ws h
    obtain rfl : ([] : List Event) = ws := Option.some_inj.mp h
    exact wellFormed_of_groupTxns [] [] rfl
  | cons c cs ih =>
    intro ws h
    rw [oledWriteStringEvents] at h
    cases hc : oledWriteCharEvents c with
    | none => rw [hc] at h; cases h
    | some e =>
      rw [hc] at h
      cases hcs : oledWriteStringEvents cs with
      | none => rw [hcs] at h; cases h
      | some es =>
        rw [hcs] at h
        obtain rfl : e ++ es = ws := Option.some_inj.mp h
        exact wellFormed_append e es (wellFormed_writeChar c e hc) (ih es hcs)

/-- C8: every routine that opens a bus transaction closes it before
returning: the traces of `oled_command`, `oled_set_cursor`,
`oled_write_char`, `oled_write_string` (whenever defined) and `oled_init`
all parse as sequences of complete start–bytes–stop transactions, with no
start issued while a transaction is open. -/
theorem bus_transactions_well_formed :
    (∀ cmd, wellFormed (oledCommandEvents cmd)) ∧
    (∀ col row, wellFormed (oledSetCursorEvents col row)) ∧
    (∀ c ws, oledWriteCharEvents c = some ws → wellFormed ws) ∧
    (∀ s ws, oledWriteStringEvents s = some ws → wellFormed ws) ∧
    wellFormed oledInitEvents :=
  ⟨fun cmd => wellFormed_of_groupTxns _ _ (groupTxns_commandEvents cmd),
   fun col row => wellFormed_of_groupTxns _ _ (groupTxns_setCursorEvents col row),
   wellFormed_writeChar,
   wellFormed_writeString,
   by unfold wellFormed; decide⟩

/-- Witness for `bus_transactions_well_formed`: discharges its
hypothesis-bearing parts on concrete traces (character code 32 and the
string of codes 32, 33). -/
theorem bus_transactions_well_formed_witness :
    wellFormed (oledCommandEvents 0xAE) ∧
    wellFormed ((oledWriteCharEvents 32).getD []) ∧
    wellFormed ((oledWriteStringEvents [32, 33]).getD []) :=
  ⟨bus_transactions_well_formed.1 0xAE,
   bus_transactions_well_formed.2.2.1 32 _ (by decide),
   bus_transactions_well_formed.2.2.2.1 [32, 33] _ (by decide)⟩

/-- C9: semantics of the unbounded busy-wait on the TWI write-interrupt
flag used by `i2c_start` and `i2c_write`: the loop terminates exactly on
those flag histories in which the flag is eventually read set, so on a
stuck bus whose flag never sets it spins forever. -/
theorem i2c_wait_termination (flag : Nat → Bool) :
    ((∃ n, flag n = true) → spinTerminates flag) ∧
    ((∀ n, flag n = false) → ¬ spinTerminates flag) := by
  constructor
  · intro h
    refine ⟨Nat.find h, ?_, Nat.find_spec h⟩
    have hall : ∀ m, m ≤ Nat.find h → spinReaches flag m := by
      intro m
      induction m with
      | zero => intro _; exact spinReaches.init
      | succ m ih =>
        intro hm
        have hmlt : m < Nat.find h := by omega
        exact spinReaches.step m (ih (by omega))
          (Bool.eq_false_iff.mpr (Nat.find_min h hmlt))
    exact hall _ le_rfl
  · rintro h ⟨n, _, hn⟩
    rw [h n] at hn
    cases hn

/-- Witness for `i2c_wait_termination`: the always-set flag history
terminates, the never-set (stuck bus) history does not. -/
theorem i2c_wait_termination_witness :
    spinTerminates (fun _ => true) ∧ ¬ spinTerminates (fun _ => false) :=
  ⟨(i2c_wait_termination (fun _ => true)).1 ⟨0, rfl⟩,
   (i2c_wait_termination (fun _ => false)).2 (fun _ => rfl)⟩

/-- C1: the claim says `writeString("0")` emits one data transaction with
payload `{0x7C,0x12,0x11,0x12,0x7C,0x00}`.  In the code, character code 48
indexes `font[48 - 32] = font[16]`, out of bounds of the 12-row table, so
the write has no defined trace; the intended glyph does sit in the table,
at row 2, but `c - 32` indexing never reaches it for input 48. -/
theorem writeString_zero_undefined :
    oledWriteStringEvents [48] = none ∧
    glyphRow 48 = none ∧
    font.length = 12 ∧
    font.get? 2 = some [0x7C, 0x12, 0x11, 0x12, 0x7C] := by
  decide

/-- C2: the claim says an unsupported character code fails with an
`UnsupportedGlyph` condition and never reads adjacent table memory.  The
code has no bounds check at all: for code 65 it evaluates `font[33]` on
the 12-row table, an out-of-bounds read of adjacent program memory
(modelled as the undefined result `none`), and no error condition of any
kind is produced. -/
theorem glyph_lookup_unchecked_at_65 :
    glyphRow 65 = none ∧ font.length = 12 ∧ 65 - 32 ≥ font.length := by
  decide

/-- C3 counterexample: the claim says the initializer emits exactly 22
command transactions; parsing the `oled_init` trace yields a transaction
list whose length is not 22 (it is 23). -/
theorem oled_init_not_22_commands :
    ¬ (groupTxns oledInitEvents).map List.length = some 22 := by
  decide

/-- C3 amended: `oled_init` emits exactly 23 single-byte command
transactions, in this exact order with these exact bytes (address byte
`0x78 = 0x3C << 1`, control byte `0x00`, then the opcode or parameter). -/
theorem oled_init_txn_list :
    groupTxns oledInitEvents = some
      [⟨0x78, [0x00, 0xAE]⟩, ⟨0x78, [0x00, 0xD5]⟩, ⟨0x78, [0x00, 0x80]⟩,
       ⟨0x78, [0x00, 0xA8]⟩, ⟨0x78, [0x00, 0x1F]⟩, ⟨0x78, [0x00, 0xD3]⟩,
       ⟨0x78, [0x00, 0x00]⟩, ⟨0x78, [0x00, 0x40]⟩, ⟨0x78, [0x00, 0x8D]⟩,
       ⟨0x78, [0x00, 0x14]⟩, ⟨0x78, [0x00, 0x20]⟩, ⟨0x78, [0x00, 0x00]⟩,
       ⟨0x78, [0x00, 0xA1]⟩, ⟨0x78, [0x00, 0xC8]⟩, ⟨0x78, [0x00, 0x81]⟩,
       ⟨0x78, [0x00, 0x8F]⟩, ⟨0x78, [0x00, 0xD9]⟩, ⟨0x78, [0x00, 0xF1]⟩,
       ⟨0x78, [0x00, 0xDB]⟩, ⟨0x78, [0x00, 0x40]⟩, ⟨0x78, [0x00, 0xA4]⟩,
       ⟨0x78, [0x00, 0xA6]⟩, ⟨0x78, [0x00, 0xAF]⟩] := by
  decide

/-- C6: the claim says every all-digit string renders as a data stream of
length `6 × len(s)`.  For the digit string "12" (codes 49, 50) the font
indices are 17 and 18, out of bounds of the 12-row table, so the render
has no defined trace at all. -/
theorem digit_string_render_undefined :
    oledWriteStringEvents [49, 50] = none ∧ glyphRow 49 = none := by
  decide

end OledDriver
